import Mathlib

/-
Verification of the magpylib geometry/transform/superposition core.

The development shallowly embeds the two Python source files
`src/magpylib/_lib/classes/collection.py` (class `Collection`) and
`src/magnet/_cube.py` (class `Cube`).  Field components, positions and angles
are modelled in exact integer arithmetic (a subring of the reals closed under
every operation the embedded code performs: addition, subtraction, negation
and scalar multiples; no division occurs in the embedded fragment).  Fallible
Python code (`sys.exit`, input-domain errors raised inside the rotation
primitive) is modelled with `Except`.  The bodies of the Rodrigues rotation
formula and of the canonical-frame cuboid evaluator are not part of the given
sources; they enter the model as abstract pure functions, see `MagModel`.
-/

set_option autoImplicit false

/-- A 3-component vector (world- or canonical-frame coordinates, or a
magnetization), with exact integer components. -/
abbrev Vec3 := ℤ × ℤ × ℤ

/-- A Python float64 scalar as it matters to the `dim` validation in
`Cube.__init__`: either NaN or a finite value (modelled exactly). -/
inductive PFloat where
  | nan
  | val (q : ℤ)
deriving DecidableEq

/-- The `numpy.isnan` test on one component. -/
def PFloat.isnan : PFloat → Bool
  | .nan => true
  | .val _ => false

/-- A Python value as produced by the built-in `sum` over a list of numpy
3-vectors: the start value is the Python int `0` (a scalar), and adding a
scalar to an array broadcasts.  `Collection.getB` returns such a value. -/
inductive PyVal where
  | scalar (n : ℤ)
  | vec (v : Vec3)
deriving DecidableEq

/-- Python `+` on the values occurring in `sum`: int+int, and numpy
broadcasting when a scalar meets an array. -/
def pyAdd : PyVal → PyVal → PyVal
  | .scalar a, .scalar b => .scalar (a + b)
  | .scalar a, .vec v => .vec (a + v.1, a + v.2.1, a + v.2.2)
  | .vec v, .scalar a => .vec (v.1 + a, v.2.1 + a, v.2.2 + a)
  | .vec v, .vec w => .vec (v + w)

/-- Python built-in `sum(list)`: left fold of `pyAdd` starting from the
Python int `0`. -/
def pysum (l : List Vec3) : PyVal :=
  l.foldl (fun acc v => pyAdd acc (.vec v)) (.scalar 0)

/-- Modelled from the spec: the two pure functions called by `Cube.getB` whose
bodies are not under src/ — the general (nonzero-angle, nonzero-axis) branch
of `angleAxisRotation` (the Rodrigues formula of section 4.1, transcendental)
and the canonical-frame cuboid evaluator `Bfield_Cube` of section 4.3
(argument order as at the call site: magnetization, local observation point,
dimension).  Both are kept abstract as parameters of the model; every theorem
below holds for every choice of them. -/
structure MagModel where
  rod : ℤ → Vec3 → Vec3 → Vec3
  Bfield_Cube : Vec3 → Vec3 → Vec3 → Vec3

/-- Modelled from the spec: `angleAxisRotation(angle, axis, v)` of section 4.1,
not under src/.  Zero angle short-circuits to the identity for every axis
value; a zero axis with nonzero angle is an input-domain error; otherwise the
Rodrigues formula (the abstract `MagModel.rod`) applies. -/
def angleAxisRotation (M : MagModel) (angle : ℤ) (axis v : Vec3) : Except String Vec3 :=
  if angle = 0 then .ok v
  else if axis = ((0 : ℤ), 0, 0) then .error "invalid rotation axis"
  else .ok (M.rod angle axis v)

/-- A `Cube` source (src/magnet/_cube.py): pose attributes (position, angle,
axis) inherited from `HomoMag`, plus magnetization and dimension. -/
structure Cube where
  magnetization : Vec3
  dimension : Vec3
  position : Vec3
  angle : ℤ
  axis : Vec3
deriving DecidableEq

/-- Conversion of a `dim` argument to the stored `dimension` array; the
fallback branch is unreachable once the validation guard in `Cube.init` has
passed, since that guard rejects exactly the lists not of the shape matched
by the first branch. -/
def dimToVec3 : List PFloat → Vec3
  | [.val a, .val b, .val c] => (a, b, c)
  | _ => ((0 : ℤ), 0, 0)

/-- The `Cube.__init__` body (src/magnet/_cube.py, lines 93-102): the `dim`
argument is converted to a float array, and `sys.exit('Bad dim input for
cube')` — modelled as `Except.error` — aborts when any component is NaN or the
arity is not 3.  No other validation of `dim` is performed. -/
def Cube.init (mag : Vec3) (dim : List PFloat) (pos : Vec3) (angle : ℤ) (axis : Vec3) :
    Except String Cube :=
  if dim.any PFloat.isnan || dim.length != 3 then
    .error "Bad dim input for cube"
  else
    .ok { magnetization := mag, dimension := dimToVec3 dim, position := pos,
          angle := angle, axis := axis }

/-- The `Cube.getB` body (src/magnet/_cube.py, lines 105-136): relative
position, inverse rotation into the canonical frame (note the negated axis),
canonical-frame evaluation, rotation of the field vector back to world
frame. -/
def Cube.getB (M : MagModel) (self : Cube) (pos : Vec3) : Except String Vec3 :=
  let p1 := pos
  let posRel := p1 - self.position
  match angleAxisRotation M self.angle (-self.axis) posRel with
  | .error e => .error e
  | .ok p21newCm =>
    let BCm := M.Bfield_Cube self.magnetization p21newCm self.dimension
    angleAxisRotation M self.angle self.axis BCm

/-- Modelled from the spec: `HomoMag.move(displacement)` is
`position += displacement` (section 4.2); the `HomoMag` class body is not
under src/. -/
def Cube.move (self : Cube) (displacement : Vec3) : Cube :=
  { self with position := self.position + displacement }

/-- A `Collection` (src/magpylib/_lib/classes/collection.py): an ordered list
of member sources.  Membership is duck-typed in the Python source, so the
member type `S` is a parameter, and each method below takes the member-level
method it invokes as a function argument. -/
structure Collection (S : Type) where
  sources : List S
deriving DecidableEq

/-- `Collection.addSource` (lines 67-96): appends to the list, with no
uniqueness check. -/
def Collection.addSource {S : Type} (self : Collection S) (source : S) : Collection S :=
  { sources := self.sources ++ [source] }

/-- The list comprehension `[s.getB(pos) for s in self.sources]` inside
`Collection.getB`: members are evaluated in insertion order and the first
member-level exception aborts the whole query. -/
def evalFields {S : Type} (getBs : S → Vec3 → Except String Vec3) (p : Vec3) :
    List S → Except String (List Vec3)
  | [] => .ok []
  | s :: rest =>
    match getBs s p with
    | .error e => .error e
    | .ok B =>
      match evalFields getBs p rest with
      | .error e => .error e
      | .ok Bs => .ok (B :: Bs)

/-- `Collection.getB` (lines 99-116): `Btotal = sum([s.getB(pos) for s in
self.sources])` — the Python built-in `sum`, whose start value is the int `0`,
so an empty collection yields the scalar `0`, not an array. -/
def Collection.getB {S : Type} (getBs : S → Vec3 → Except String Vec3)
    (self : Collection S) (pos : Vec3) : Except String PyVal :=
  match evalFields getBs pos self.sources with
  | .error e => .error e
  | .ok Bs => .ok (pysum Bs)

/-- `Collection.move` (lines 119-147): calls `s.move(displacement)` on every
member, in order, with the same displacement. -/
def Collection.move {S : Type} (moveS : S → Vec3 → S) (self : Collection S)
    (displacement : Vec3) : Collection S :=
  { sources := self.sources.map (fun s => moveS s displacement) }

/-- A Python value passed as the `anchor` argument of `rotate`: either a
string (the default is the literal string `self.position`) or a 3-vector. -/
inductive PyArg where
  | str (s : String)
  | vec3 (v : Vec3)
deriving DecidableEq

/-- `Collection.rotate` (lines 150-188): calls
`s.rotate(angle, axis, anchor=anchor)` on every member, in order, passing the
anchor argument through unchanged. -/
def Collection.rotate {S : Type} (rotS : S → ℤ → Vec3 → PyArg → S)
    (self : Collection S) (angle : ℤ) (axis : Vec3) (anchor : PyArg) : Collection S :=
  { sources := self.sources.map (fun s => rotS s angle axis anchor) }

/-- `Collection.rotate` invoked without an anchor argument: Python fills in
the default value of the `anchor` parameter, which in the source is the
literal string `self.position` (not a vector and not a position computed by
the collection). -/
def Collection.rotateNoAnchor {S : Type} (rotS : S → ℤ → Vec3 → PyArg → S)
    (self : Collection S) (angle : ℤ) (axis : Vec3) : Collection S :=
  Collection.rotate rotS self angle axis (.str "self.position")

/-- State-passing form of `Cube.getB`, making any mutation of `self`
observable: each statement of the method body is traced, and since no
statement of the source assigns to an attribute of `self`, every exit path
returns the incoming `self` as the post-state. -/
def Cube.getBS (M : MagModel) (self : Cube) (pos : Vec3) : Except String Vec3 × Cube :=
  let p1 := pos
  let posRel := p1 - self.position
  match angleAxisRotation M self.angle (-self.axis) posRel with
  | .error e => (.error e, self)
  | .ok p21newCm =>
    let BCm := M.Bfield_Cube self.magnetization p21newCm self.dimension
    (angleAxisRotation M self.angle self.axis BCm, self)

/-- State-passing form of the member loop in `Collection.getB`: each member is
evaluated with a member-level method that may return an updated member, and
the (possibly updated) member states are collected alongside the results. -/
def evalFieldsS {S : Type} (g : S → Vec3 → Except String Vec3 × S) (p : Vec3) :
    List S → Except String (List Vec3) × List S
  | [] => (.ok [], [])
  | s :: rest =>
    match g s p with
    | (.error e, s1) => (.error e, s1 :: rest)
    | (.ok B, s1) =>
      match evalFieldsS g p rest with
      | (.error e, rest1) => (.error e, s1 :: rest1)
      | (.ok Bs, rest1) => (.ok (B :: Bs), s1 :: rest1)

/-- State-passing form of `Collection.getB`. -/
def Collection.getBS {S : Type} (g : S → Vec3 → Except String Vec3 × S)
    (self : Collection S) (pos : Vec3) : Except String PyVal × Collection S :=
  match evalFieldsS g pos self.sources with
  | (.error e, ss) => (.error e, { sources := ss })
  | (.ok Bs, ss) => (.ok (pysum Bs), { sources := ss })

/-- Whether an `Except` result is an error. -/
def exceptIsError {α : Type} : Except String α → Bool
  | .error _ => true
  | .ok _ => false

/-- A concrete model instance, used to evaluate the embedding on closed
inputs (any choice of the two abstract functions would do). -/
def trivialModel : MagModel :=
  ⟨fun _ _ v => v, fun mag _ _ => mag⟩

/-- Adding a vector to the scalar start value `0` of `sum` broadcasts and
yields the vector unchanged. -/
theorem pyAdd_scalar_zero_vec (v : Vec3) : pyAdd (.scalar 0) (.vec v) = .vec v := by
  simp [pyAdd]

/-- Folding `pyAdd` from a vector accumulator adds the list sum. -/
theorem foldl_pyAdd_vec (l : List Vec3) (w : Vec3) :
    List.foldl (fun acc v => pyAdd acc (.vec v)) (.vec w) l = .vec (w + l.sum) := by
  induction l generalizing w with
  | nil => simp
  | cons v t ih =>
    rw [List.foldl_cons, show pyAdd (.vec w) (.vec v) = .vec (w + v) from rfl, ih,
      List.sum_cons, add_assoc]

/-- On a nonempty list, the Python `sum` is the vector sum of the entries. -/
theorem pysum_eq_vec_sum (l : List Vec3) (h : l ≠ []) : pysum l = .vec l.sum := by
  cases l with
  | nil => exact absurd rfl h
  | cons v t =>
    rw [pysum, List.foldl_cons, pyAdd_scalar_zero_vec, foldl_pyAdd_vec, List.sum_cons]

/-- Member evaluation over a replicated list replicates the single field. -/
theorem evalFields_replicate {S : Type} (getBs : S → Vec3 → Except String Vec3) (p : Vec3)
    (s : S) (B : Vec3) (h : getBs s p = .ok B) (N : ℕ) :
    evalFields getBs p (List.replicate N s) = .ok (List.replicate N B) := by
  induction N with
  | zero => rfl
  | succ n ih => simp [List.replicate_succ, evalFields, h, ih]

/-- Permuting the member list permutes the list of member fields (and in
particular preserves success of the whole evaluation). -/
theorem evalFields_perm {S : Type} (getBs : S → Vec3 → Except String Vec3) (p : Vec3)
    {l1 l2 : List S} (hp : l1.Perm l2) :
    ∀ {Bs1 : List Vec3}, evalFields getBs p l1 = .ok Bs1 →
      ∃ Bs2, evalFields getBs p l2 = .ok Bs2 ∧ Bs1.Perm Bs2 := by
  induction hp with
  | nil =>
    intro Bs1 h1
    exact ⟨Bs1, h1, .refl _⟩
  | cons x hp ih =>
    intro Bs1 h1
    rename_i t1 t2
    cases hx : getBs x p with
    | error e => simp [evalFields, hx] at h1
    | ok B =>
      cases ht : evalFields getBs p t1 with
      | error e => simp [evalFields, hx, ht] at h1
      | ok rest =>
        simp only [evalFields, hx, ht, Except.ok.injEq] at h1
        obtain ⟨rest2, h2, hBp⟩ := ih ht
        subst h1
        exact ⟨B :: rest2, by simp [evalFields, hx, h2], .cons _ hBp⟩
  | swap x y l =>
    intro Bs1 h1
    cases hy : getBs y p with
    | error e => simp [evalFields, hy] at h1
    | ok By =>
      cases hx : getBs x p with
      | error e => simp [evalFields, hy, hx] at h1
      | ok Bx =>
        cases hl : evalFields getBs p l with
        | error e => simp [evalFields, hy, hx, hl] at h1
        | ok rest =>
          simp only [evalFields, hy, hx, hl, Except.ok.injEq] at h1
          subst h1
          exact ⟨Bx :: By :: rest, by simp [evalFields, hy, hx, hl], .swap _ _ _⟩
  | trans hp1 hp2 ih1 ih2 =>
    intro Bs1 h1
    obtain ⟨Bs2, h2, p12⟩ := ih1 h1
    obtain ⟨Bs3, h3, p23⟩ := ih2 h2
    exact ⟨Bs3, h3, p12.trans p23⟩

/-- The Python `sum` is invariant under permutation of the list. -/
theorem pysum_perm {l1 l2 : List Vec3} (h : l1.Perm l2) : pysum l1 = pysum l2 := by
  cases l1 with
  | nil =>
    rw [h.nil_eq]
  | cons v t =>
    have hne2 : l2 ≠ [] := by
      intro hn
      subst hn
      exact List.cons_ne_nil v t h.eq_nil
    rw [pysum_eq_vec_sum _ (List.cons_ne_nil v t), pysum_eq_vec_sum _ hne2, h.sum_eq]

/-- Auxiliary: a successful member evaluation yields one field per member. -/
theorem evalFields_length {S : Type} (getBs : S → Vec3 → Except String Vec3) (p : Vec3) :
    ∀ (l : List S) (Bs : List Vec3), evalFields getBs p l = .ok Bs → Bs.length = l.length := by
  intro l
  induction l with
  | nil =>
    intro Bs h
    simp only [evalFields, Except.ok.injEq] at h
    rw [← h]
    rfl
  | cons s t ih =>
    intro Bs h
    cases hx : getBs s p with
    | error e => simp [evalFields, hx] at h
    | ok B =>
      cases ht : evalFields getBs p t with
      | error e => simp [evalFields, hx, ht] at h
      | ok rest =>
        simp only [evalFields, hx, ht, Except.ok.injEq] at h
        rw [← h]
        simp [ih rest ht]

/-- C1: the code does not return the zero 3-vector on an empty Collection —
`sum([])` is the Python int `0`, a scalar.  Evaluated here at the concrete
observation point `(1, 0, 1)` with `Cube` members. -/
theorem collection_getB_empty_is_python_scalar_zero :
    Collection.getB (Cube.getB trivialModel) { sources := ([] : List Cube) } ((1 : ℤ), 0, 1)
      = .ok (PyVal.scalar 0) := rfl

/-- C2: a Cube constructed with the identity pose (angle 0, position the
origin) yields `getB p` equal to the canonical-frame evaluator applied
directly to `p`, for every model, magnetization, dimension, axis and point. -/
theorem cube_getB_identity_pose_eq_canonical_evaluator (M : MagModel)
    (mag dim axis p : Vec3) :
    Cube.getB M { magnetization := mag, dimension := dim, position := ((0 : ℤ), 0, 0),
                  angle := 0, axis := axis } p
      = .ok (M.Bfield_Cube mag p dim) := by
  simp [Cube.getB, angleAxisRotation, show (((0 : ℤ), 0, 0) : Vec3) = 0 from rfl, sub_zero]

/-- C4 counterexample: construction with the non-positive side length `-1`
succeeds — the `__init__` guard checks only NaN components and arity, so the
claimed rejection of non-positive dimensions does not happen. -/
theorem cube_init_accepts_nonpositive_dimension :
    Cube.init ((0 : ℤ), 0, 1000) [PFloat.val (-1), PFloat.val 1, PFloat.val 1]
        ((0 : ℤ), 0, 0) 0 ((0 : ℤ), 0, 1)
      = .ok { magnetization := ((0 : ℤ), 0, 1000), dimension := ((-1 : ℤ), 1, 1),
              position := ((0 : ℤ), 0, 0), angle := 0, axis := ((0 : ℤ), 0, 1) } := rfl

/-- C4 (amended): Cube construction fails fast, before any field query is
possible, exactly when `dim` has wrong arity or a NaN component; non-positive
side lengths are not checked, and any 3-component NaN-free `dim` is
accepted. -/
theorem cube_init_validation_characterization (mag : Vec3) (dim : List PFloat)
    (pos : Vec3) (angle : ℤ) (axis : Vec3) :
    (∃ c, Cube.init mag dim pos angle axis = Except.ok c) ↔
      (dim.length = 3 ∧ dim.any PFloat.isnan = false) := by
  unfold Cube.init
  by_cases h : (dim.any PFloat.isnan || dim.length != 3) = true
  · rw [if_pos h]
    simp only [Bool.or_eq_true, bne_iff_ne, Ne] at h
    constructor
    · rintro ⟨c, hc⟩
      simp at hc
    · rintro ⟨hl, ha⟩
      rcases h with h | h
      · rw [ha] at h
        cases h
      · exact absurd hl h
  · rw [if_neg h]
    simp only [Bool.or_eq_true, bne_iff_ne, Ne, not_or, not_not, Bool.not_eq_true] at h
    constructor
    · intro _
      exact ⟨h.2, h.1⟩
    · intro _
      exact ⟨_, rfl⟩

/-- C5: moving a Cube by `d` and querying at `p + d` returns the same field as
the unmoved Cube queried at `p` — the field depends on the position only
through the relative vector. -/
theorem cube_getB_translation_covariance (M : MagModel) (c : Cube) (d p : Vec3) :
    Cube.getB M (Cube.move c d) (p + d) = Cube.getB M c p := by
  have h : p + d - (c.position + d) = p - c.position := by ring
  simp [Cube.getB, Cube.move, h]

/-- C7: Collection.move applies the identical displacement to every member,
adding exactly `d` to each position while leaving magnetization, dimension,
angle, axis, and the length and order of the sources list unchanged. -/
theorem collection_move_broadcasts_displacement (c : Collection Cube) (d : Vec3) :
    Collection.move Cube.move c d
      = { sources := c.sources.map (fun s =>
            { magnetization := s.magnetization, dimension := s.dimension,
              position := s.position + d, angle := s.angle, axis := s.axis }) } := rfl

/-- C9: the rotation primitive returns the input vector exactly when the angle
is zero, for every axis including the zero axis; and it reports an
input-domain error precisely when the axis is the zero vector and the angle is
nonzero. -/
theorem angleAxisRotation_zero_angle_and_error_condition (M : MagModel)
    (angle : ℤ) (axis v : Vec3) :
    angleAxisRotation M 0 axis v = .ok v
  ∧ exceptIsError (angleAxisRotation M angle axis v)
      = (decide (axis = (((0 : ℤ), 0, 0) : Vec3)) && !decide (angle = (0 : ℤ))) := by
  constructor
  · simp [angleAxisRotation]
  · by_cases ha : angle = 0
    · simp [angleAxisRotation, ha, exceptIsError]
    · by_cases hx : axis = (0 : Vec3)
      · simp [angleAxisRotation, ha, hx, exceptIsError]
      · simp [angleAxisRotation, ha, hx, exceptIsError]

/-- C10: Collection.rotate called without an anchor argument passes the
literal string sentinel `self.position` — not a vector — unchanged to the
`rotate` method of every member, which resolves it itself at call time. -/
theorem collection_rotate_default_anchor_sentinel {S : Type}
    (rotS : S → ℤ → Vec3 → PyArg → S) (c : Collection S) (angle : ℤ) (axis : Vec3) :
    Collection.rotateNoAnchor rotS c angle axis
      = { sources := c.sources.map (fun s => rotS s angle axis (PyArg.str "self.position")) } :=
  rfl

/-- C3: on a non-empty Collection whose members all evaluate successfully,
getB is the element-wise vector sum of the member fields in insertion order;
and a Collection holding N references to one source returns N times that
single-source field. -/
theorem collection_getB_superposition_sum_and_replicate {S : Type}
    (getBs : S → Vec3 → Except String Vec3) (p : Vec3) :
    (∀ (c : Collection S) (Bs : List Vec3),
        evalFields getBs p c.sources = .ok Bs → c.sources ≠ [] →
        Collection.getB getBs c p = .ok (.vec Bs.sum))
  ∧ (∀ (s : S) (B : Vec3) (N : ℕ), getBs s p = .ok B → 0 < N →
        Collection.getB getBs { sources := List.replicate N s } p = .ok (.vec (N • B))) := by
  constructor
  · intro c Bs h hne
    have hBne : Bs ≠ [] := by
      intro hBs
      apply hne
      have hlen := evalFields_length getBs p c.sources Bs h
      rw [hBs] at hlen
      exact List.length_eq_zero.mp hlen.symm
    simp only [Collection.getB, h]
    rw [pysum_eq_vec_sum _ hBne]
  · intro s B N hB hN
    have hrep := evalFields_replicate getBs p s B hB N
    simp only [Collection.getB, hrep]
    have hne : List.replicate N B ≠ [] := by
      intro hn
      have hlen := congrArg List.length hn
      simp only [List.length_replicate, List.length_nil] at hlen
      omega
    rw [pysum_eq_vec_sum _ hne, List.sum_replicate]

/-- C3 witness: both parts evaluated on a concrete two-member collection and
on three references to one source. -/
theorem collection_getB_superposition_witness :
    Collection.getB (fun (_ : Unit) (_ : Vec3) => Except.ok (((1 : ℤ), 2, 3) : Vec3))
        { sources := [(), ()] } ((0 : ℤ), 0, 0)
      = .ok (.vec ([((1 : ℤ), 2, 3), ((1 : ℤ), 2, 3)] : List Vec3).sum)
  ∧ Collection.getB (fun (_ : Unit) (_ : Vec3) => Except.ok (((1 : ℤ), 2, 3) : Vec3))
        { sources := List.replicate 3 () } ((0 : ℤ), 0, 0)
      = .ok (.vec ((3 : ℕ) • (((1 : ℤ), 2, 3) : Vec3))) :=
  ⟨(collection_getB_superposition_sum_and_replicate _ _).1 { sources := [(), ()] }
      [((1 : ℤ), 2, 3), ((1 : ℤ), 2, 3)] rfl (by simp),
   (collection_getB_superposition_sum_and_replicate _ _).2 () ((1 : ℤ), 2, 3) 3 rfl
      (by decide)⟩

/-- C6: permuting the insertion order of the members of a Collection leaves
the returned field value unchanged — two Collections holding the same multiset
of sources agree at every point where one of them returns a value. -/
theorem collection_getB_perm_invariant {S : Type} (getBs : S → Vec3 → Except String Vec3)
    (c1 c2 : Collection S) (p : Vec3) (B : PyVal)
    (hperm : c1.sources.Perm c2.sources)
    (h1 : Collection.getB getBs c1 p = .ok B) :
    Collection.getB getBs c2 p = .ok B := by
  cases h : evalFields getBs p c1.sources with
  | error e => simp [Collection.getB, h] at h1
  | ok Bs1 =>
    simp only [Collection.getB, h, Except.ok.injEq] at h1
    obtain ⟨Bs2, h2, hBp⟩ := evalFields_perm getBs p hperm h
    simp only [Collection.getB, h2, Except.ok.injEq]
    rw [← pysum_perm hBp]
    exact h1

/-- C6 witness: a two-member collection evaluated in both insertion orders. -/
theorem collection_getB_perm_invariant_witness :
    Collection.getB (fun (n : ℤ) (_ : Vec3) => Except.ok ((n, 0, 0) : Vec3))
      { sources := [2, 1] } ((0 : ℤ), 0, 0) = .ok (.vec ((3 : ℤ), 0, 0)) :=
  collection_getB_perm_invariant (fun (n : ℤ) (_ : Vec3) => Except.ok ((n, 0, 0) : Vec3))
    { sources := [1, 2] } { sources := [2, 1] } ((0 : ℤ), 0, 0) (.vec ((3 : ℤ), 0, 0))
    (by decide) rfl

/-- Auxiliary for C8: a member-level method that returns its incoming state
unchanged makes the state-passing member loop return the incoming list. -/
theorem evalFieldsS_of_pure {S : Type} (g : S → Vec3 → Except String Vec3 × S)
    (getBs : S → Vec3 → Except String Vec3) (hpure : ∀ s q, g s q = (getBs s q, s))
    (p : Vec3) (l : List S) : evalFieldsS g p l = (evalFields getBs p l, l) := by
  induction l with
  | nil => rfl
  | cons s t ih =>
    cases hx : getBs s p with
    | error e => simp [evalFieldsS, evalFields, hpure, hx]
    | ok B =>
      cases ht : evalFields getBs p t with
      | error e => simp [evalFieldsS, evalFields, hpure, hx, ht, ih]
      | ok Bs => simp [evalFieldsS, evalFields, hpure, hx, ht, ih]

/-- C8: getB mutates no state and recomputes deterministically — in the
state-passing embedding, `Cube.getBS` and `Collection.getBS` return exactly
the pure `getB` value paired with the unchanged pre-state (every source keeps
its position, angle, axis, dimension and magnetization, and the sources list
keeps its members), so any two calls on that unchanged state agree. -/
theorem getB_state_passing_pure (M : MagModel) (c : Cube) (coll : Collection Cube)
    (p : Vec3) :
    Cube.getBS M c p = (Cube.getB M c p, c)
  ∧ Collection.getBS (Cube.getBS M) coll p = (Collection.getB (Cube.getB M) coll p, coll) := by
  have hcube : ∀ (s : Cube) (q : Vec3), Cube.getBS M s q = (Cube.getB M s q, s) := by
    intro s q
    cases h : angleAxisRotation M s.angle (-s.axis) (q - s.position) with
    | error e => simp [Cube.getBS, Cube.getB, h]
    | ok x => simp [Cube.getBS, Cube.getB, h]
  refine ⟨hcube c p, ?_⟩
  have hS := evalFieldsS_of_pure (Cube.getBS M) (Cube.getB M) hcube p coll.sources
  cases h : evalFields (Cube.getB M) p coll.sources with
  | error e => simp [Collection.getBS, Collection.getB, hS, h]
  | ok Bs => simp [Collection.getBS, Collection.getB, hS, h]
